import Mathlib

/-!
Verification development for the MFA-aligner analysis tools
(`tools/analyze_textgrids.py`, `tools/metrics.py`, `tools/analyze_oov.py`).

The Python sources are shallowly embedded: a file's text is a `String`
(or a `List String` of its lines), Python string primitives are modelled
on `List Char` (ASCII-faithful: `str.lower`, `str.isupper`, character
classes are modelled by the corresponding `Char` predicates of Lean,
which agree with Python on ASCII input), Python `float` values are
modelled as exact rationals `ℚ`, and `float(...)` parsing is modelled
by a parser for simple decimal literals (optional sign, digits, optional
fractional part).  Mutable loops become folds over explicit state
records.
-/

namespace MfaAligner

/-- Test `startsWithL pat l`: `pat` is a prefix of `l` (models Python
`str.startswith` on character lists). -/
def startsWithL : List Char → List Char → Bool
  | [], _ => true
  | _ :: _, [] => false
  | p :: ps, c :: cs => p == c && startsWithL ps cs

/-- Test `containsL pat l`: `pat` occurs as a contiguous substring of `l`
(models Python's `pat in l`). -/
def containsL (pat : List Char) : List Char → Bool
  | [] => startsWithL pat []
  | c :: rest => startsWithL pat (c :: rest) || containsL pat rest

/-- Substring test on `String`s: models Python `pat in s`. -/
def containsS (pat s : String) : Bool := containsL pat.toList s.toList

/-- Strip characters satisfying `p` from both ends of a list. -/
def stripWhile (p : Char → Bool) (l : List Char) : List Char :=
  ((l.dropWhile p).reverse.dropWhile p).reverse

/-- Models Python `str.strip()` (strip surrounding whitespace). -/
def pyStrip (l : List Char) : List Char := stripWhile Char.isWhitespace l

/-- Models Python `str.strip('"')` (strip surrounding double quotes). -/
def stripQuotes (l : List Char) : List Char := stripWhile (· == '"') l

/-- Models Python `str.lower()` (ASCII case folding). -/
def lowerL (l : List Char) : List Char := l.map Char.toLower

def splitAllAux (sep : Char) : List Char → List Char → List (List Char)
  | [], acc => [acc.reverse]
  | c :: cs, acc =>
    if c == sep then acc.reverse :: splitAllAux sep cs []
    else splitAllAux sep cs (c :: acc)

/-- Models Python `str.split(sep)` for a one-character separator:
splits at every occurrence, keeping empty pieces. -/
def splitAll (sep : Char) (l : List Char) : List (List Char) :=
  splitAllAux sep l []

/-- The characters after the first occurrence of `sep`, if any: models
Python `str.split(sep, 1)[1]` (defined exactly when `sep` occurs). -/
def afterFirst (sep : Char) : List Char → Option (List Char)
  | [] => none
  | c :: cs => if c == sep then some cs else afterFirst sep cs

def splitWsAux : List Char → List Char → List (List Char)
  | [], acc => if acc.isEmpty then [] else [acc.reverse]
  | c :: cs, acc =>
    if c.isWhitespace then
      if acc.isEmpty then splitWsAux cs [] else acc.reverse :: splitWsAux cs []
    else splitWsAux cs (c :: acc)

/-- Models Python `str.split()` with no argument: split on whitespace
runs, discarding empty pieces. -/
def splitWs (l : List Char) : List (List Char) := splitWsAux l []

/-- Numeric value of a digit string (most significant digit first). -/
def natOfDigits (l : List Char) : ℕ :=
  l.foldl (fun n c => 10 * n + (c.toNat - 48)) 0

/-- Parser for an unsigned decimal literal `digits [. digits]` with at
least one digit; models the accepting core of Python `float(...)` on the
inputs this program feeds it. -/
def parseUnsigned? (l : List Char) : Option ℚ :=
  let ip := l.takeWhile Char.isDigit
  let rest := l.dropWhile Char.isDigit
  match rest with
  | [] => if ip.isEmpty then none else some (natOfDigits ip)
  | '.' :: fp =>
    if fp.all Char.isDigit && !(ip.isEmpty && fp.isEmpty) then
      some ((natOfDigits ip : ℚ) + (natOfDigits fp : ℚ) / (10 : ℚ) ^ fp.length)
    else none
  | _ => none

/-- Models Python `float(s)` on a stripped string: `some v` when `s` is
a decimal literal with optional sign, `none` (a `ValueError`) otherwise. -/
def parseFloat? : List Char → Option ℚ
  | '-' :: r => (parseUnsigned? r).map Neg.neg
  | '+' :: r => parseUnsigned? r
  | l => parseUnsigned? l

/-! ## `tools/analyze_textgrids.py` — `read_textgrid` -/

/-- The tier tracked by `read_textgrid`'s `current_tier` variable after a
tier-name declaration has been seen (`'words'`, `'phones'`, or anything
else → `'unknown'`). -/
inductive Tier where
  | words
  | phones
  | unknown
  deriving DecidableEq, Repr

/-- The tier a (stripped) line declares, if it contains a `name =` field:
mirrors the `if 'name =' in line: ...` branch of `read_textgrid`. -/
def declTier? (line : List Char) : Option Tier :=
  if containsL "name =".toList line then
    if containsL "\"words\"".toList line || containsL "'words'".toList line then
      some Tier.words
    else if containsL "\"phones\"".toList line || containsL "'phones'".toList line then
      some Tier.phones
    else some Tier.unknown
  else none

/-- The interval content of a (stripped) line with a `text =` field:
`line.split('=', 1)[1].strip().strip('"').strip()`.  The `getD []` arm is
unreachable when `'text ='` occurs in the line, since the line then
contains `'='`. -/
def textContent (line : List Char) : List Char :=
  pyStrip (stripQuotes (pyStrip ((afterFirst '=' line).getD [])))

/-- The counters mutated by `read_textgrid`'s interval-scanning loop,
together with its `current_tier` variable (`none` before the first
tier-name declaration). -/
structure TGScan where
  current_tier : Option Tier
  interval_count : ℕ
  word_count : ℕ
  phone_count : ℕ
  empty_intervals : ℕ
  deriving DecidableEq, Repr

def TGScan.init : TGScan :=
  { current_tier := none, interval_count := 0, word_count := 0
    phone_count := 0, empty_intervals := 0 }

/-- One iteration of `read_textgrid`'s second loop on a raw line: strip
the line, update `current_tier` on a `name =` field, then count the
interval on a `text =` field. -/
def scanStep (st : TGScan) (rawLine : List Char) : TGScan :=
  let line := pyStrip rawLine
  let tier := match declTier? line with
    | some t => some t
    | none => st.current_tier
  if containsL "text =".toList line then
    let text := textContent line
    if text.isEmpty then
      { st with current_tier := tier
                interval_count := st.interval_count + 1
                empty_intervals := st.empty_intervals + 1 }
    else if tier = some Tier.words then
      { st with current_tier := tier
                interval_count := st.interval_count + 1
                word_count := st.word_count + 1 }
    else if tier = some Tier.phones then
      { st with current_tier := tier
                interval_count := st.interval_count + 1
                phone_count := st.phone_count + 1 }
    else
      { st with current_tier := tier, interval_count := st.interval_count + 1 }
  else
    { st with current_tier := tier }

/-- The second loop of `read_textgrid` over all lines of the file. -/
def scanLines (lines : List (List Char)) : TGScan :=
  lines.foldl scanStep TGScan.init

/-- The effective tier a line's intervals are counted under: the tier
declared on the line itself, else the inherited one (the source updates
`current_tier` before testing for `text =` on the same line). -/
def effTier (st : TGScan) (l : List Char) : Option Tier :=
  match declTier? (pyStrip l) with
  | some t => some t
  | none => st.current_tier

/-- The counting invariant of one scan state: intervals counted toward
words, phones and empties never exceed the total interval count. -/
def TGScan.Inv (st : TGScan) : Prop :=
  st.word_count + st.phone_count + st.empty_intervals ≤ st.interval_count

/-- The annotation content of the spec's worked example: a `"words"`
tier with intervals `["", "cat", "dog"]` followed by a `"phones"` tier
with `["k", "ae", "t"]`. -/
def exampleTG : List String :=
  [ "    name = \"words\""
  , "        text = \"\""
  , "        text = \"cat\""
  , "        text = \"dog\""
  , "    name = \"phones\""
  , "        text = \"k\""
  , "        text = \"ae\""
  , "        text = \"t\"" ]

/-- The value a line contributes to the `xmax` search: `some v` when the
line contains `'xmax'` and `'='` and `float(line.split('=')[1].strip())`
succeeds with value `v`; `none` otherwise (the `except` branch). -/
def xmaxVal? (line : List Char) : Option ℚ :=
  if containsL "xmax".toList line && containsL "=".toList line then
    parseFloat? (pyStrip ((splitAll '=' line).getD 1 []))
  else none

/-- The first loop of `read_textgrid`: scan the lines for the first one whose
`xmax` value parses, `break`ing there; `0.0` (the initialized default)
when no line's value parses. -/
def findXmax : List (List Char) → ℚ
  | [] => 0
  | l :: ls =>
    match xmaxVal? l with
    | some v => v
    | none => findXmax ls

/-- The statistics record returned by `read_textgrid` (the `filename`
key, taken from the path, is omitted; `empty_intervals` is the
`empty_interval_count` of the spec). -/
structure TGStats where
  total_duration : ℚ
  interval_count : ℕ
  word_count : ℕ
  phone_count : ℕ
  empty_intervals : ℕ
  has_errors : Bool
  deriving DecidableEq, Repr

/-- The result of `read_textgrid` on the list of lines of a file that reads without an
I/O exception. -/
def read_textgrid (lines : List String) : TGStats :=
  let ls := lines.map String.toList
  let sc := scanLines ls
  { total_duration := findXmax ls
    interval_count := sc.interval_count
    word_count := sc.word_count
    phone_count := sc.phone_count
    empty_intervals := sc.empty_intervals
    has_errors := false }

/-- The result of `read_textgrid` on a file whose scan aborts with an exception after
`k` raw lines were processed by each loop: the counters accumulated so
far are returned with `has_errors = true` (when `k ≥ lines.length` the
scan in fact completed and `has_errors = false`). -/
def read_textgrid_run (lines : List String) (k : ℕ) : TGStats :=
  let ls := (lines.map String.toList).take k
  let sc := scanLines ls
  { total_duration := findXmax ls
    interval_count := sc.interval_count
    word_count := sc.word_count
    phone_count := sc.phone_count
    empty_intervals := sc.empty_intervals
    has_errors := decide (k < lines.length) }

/-! ## `tools/metrics.py` — `parse_validation_log`, `calculate_coverage` -/

/-- The phrases whose presence makes `parse_validation_log` skip a line
containing `'error'` (the "NO errors" false-positive list). -/
def skipPhrases : List String :=
  ["no error", "there were no", "0 error", "without error",
   "error read", "read error", "no issues"]

/-- The phrases `parse_validation_log` accepts as actual error
indicators. -/
def errPhrases : List String :=
  [" error:", "error occurred", "failed", "exception",
   "traceback", "error -"]

/-- A line increments `error_count`: it contains `'error'`
(case-insensitively), none of the no-error `skipPhrases`, and at least
one of the `errPhrases` indicators. -/
def isErrorLine (line : List Char) : Bool :=
  let ll := lowerL line
  containsL "error".toList ll
    && !(skipPhrases.any fun p => containsL p.toList ll)
    && (errPhrases.any fun p => containsL p.toList ll)

/-- The statistics record built by `parse_validation_log`
(`total_utterances` is initialized and never updated by the source;
`oov_words` keeps Python's set semantics as a duplicate-free list in
first-insertion order). -/
structure VStats where
  oov_count : ℕ
  oov_words : List (List Char)
  total_utterances : ℕ
  error_count : ℕ
  deriving DecidableEq, Repr

def VStats.init : VStats :=
  { oov_count := 0, oov_words := [], total_utterances := 0, error_count := 0 }

/-- Add an element to a Python-set-as-list (no-op when present). -/
def setAdd (s : List (List Char)) (w : List Char) : List (List Char) :=
  if w ∈ s then s else s ++ [w]

/-- The words `parse_validation_log` adds to `oov_words` from one line:
each `parts[i-1]` such that `parts[i].lower() == 'not'` with `i > 0`,
where `parts = line.split()`. -/
def oovWordsOfLine (line : List Char) : List (List Char) :=
  if containsL "not found in dictionary".toList (lowerL line) then
    let parts := splitWs line
    (List.range parts.length).filterMap fun i =>
      if lowerL (parts.getD i []) == "not".toList && 0 < i then
        some (parts.getD (i - 1) [])
      else none
  else []

/-- One iteration of `parse_validation_log`'s loop on a raw line. -/
def vStep (st : VStats) (line : List Char) : VStats :=
  let st :=
    if containsL "OOV".toList line || containsL "oov".toList (lowerL line) then
      { st with oov_count := st.oov_count + 1 }
    else st
  let st := { st with oov_words := (oovWordsOfLine line).foldl setAdd st.oov_words }
  if isErrorLine line then { st with error_count := st.error_count + 1 } else st

/-- The result of `parse_validation_log` on the list of lines of a readable log. -/
def parse_validation_log (lines : List String) : VStats :=
  (lines.map String.toList).foldl vStep VStats.init

/-- The function `calculate_coverage` (floats modelled as exact rationals). -/
def calculate_coverage (wav_count textgrid_count : ℕ) : ℚ :=
  if wav_count = 0 then 0
  else ((textgrid_count : ℚ) / (wav_count : ℚ)) * 100

/-! ## `tools/analyze_oov.py` — extraction, frequencies, classification -/

/-- A regex word character `\w` (ASCII): letter, digit or underscore. -/
def isWordChar (c : Char) : Bool := c.isAlphanum || c == '_'

/-- The literal prefixes of the four extraction patterns of
`extract_oov_words_from_log`; each full pattern is
`<literal>\s*(\w+)` matched case-insensitively. -/
def oovPatterns : List String :=
  ["OOV:", "out of vocabulary:", "not found in dictionary:", "unknown word:"]

/-- Model of `re.findall` for a pattern of the shape `<lit>\s*(\w+)` with
`re.IGNORECASE`: scan left to right; at a position where the lowered
text starts with the lowered literal, skip whitespace and capture the
maximal nonempty `\w+` run, resuming after the match (non-overlapping);
if the run is empty the pattern fails there and scanning resumes at the
next position.  `fuel` bounds the recursion by the text length. -/
def findallAux (lit : List Char) : ℕ → List Char → List (List Char)
  | 0, _ => []
  | _ + 1, [] => []
  | fuel + 1, c :: rest =>
    if startsWithL (lowerL lit) (lowerL (c :: rest)) then
      let afterLit := (c :: rest).drop lit.length
      let afterWs := afterLit.dropWhile Char.isWhitespace
      let w := afterWs.takeWhile isWordChar
      if w.isEmpty then findallAux lit fuel rest
      else w :: findallAux lit fuel (afterWs.drop w.length)
    else findallAux lit fuel rest

def findall (lit : List Char) (content : List Char) : List (List Char) :=
  findallAux lit (content.length + 1) content

/-- The result of `extract_oov_words_from_log` on the full text of a readable log:
all matches of each pattern in pattern order, concatenated. -/
def extract_oov_words_from_log (content : String) : List String :=
  (oovPatterns.foldl
    (fun acc pat => acc ++ findall pat.toList content.toList) []).map
    fun l => String.mk l

/-- Lookup in the insertion-ordered frequency map: Python
`word_frequencies.get(word, 0)`. -/
def alistGet (m : List (String × ℕ)) (w : String) : ℕ :=
  match m.find? (fun e => e.1 == w) with
  | some e => e.2
  | none => 0

/-- Model of `word_frequencies[word] = word_frequencies.get(word, 0) + 1` on a
Python dict, modelled as an insertion-ordered association list with
distinct keys: increment in place when the key exists (its position is
unchanged), otherwise append the new key at the end. -/
def alistIncr : List (String × ℕ) → String → List (String × ℕ)
  | [], w => [(w, 1)]
  | e :: rest, w =>
    if e.1 = w then (e.1, e.2 + 1) :: rest else e :: alistIncr rest w

/-- The payload words of one line of `utterance_oovs.txt`: when the line
contains `':'`, split at the first `':'`, strip the payload and split it
on whitespace (`parts[1].strip().split()`); otherwise no words. -/
def uttPayloadWords (line : List Char) : List (List Char) :=
  match afterFirst ':' line with
  | some payload => splitWs (pyStrip payload)
  | none => []

/-- One iteration of `read_oov_files`' loop over `utterance_oovs.txt`:
each payload word (each is already whitespace-free and nonempty, so the
inner `word.strip()` / `if word:` guards of the source never reject)
increments its cumulative count. -/
def uttLineStep (m : List (String × ℕ)) (line : List Char) : List (String × ℕ) :=
  ((uttPayloadWords line).map fun l => String.mk l).foldl alistIncr m

/-- The frequency-map half of `read_oov_files`: the fold of
`uttLineStep` over the lines of `utterance_oovs.txt`. -/
def read_oov_utterances (lines : List String) : List (String × ℕ) :=
  (lines.map String.toList).foldl uttLineStep []

/-- Python `str.isupper()`: at least one cased character, and every
cased character is uppercase (ASCII model of casedness). -/
def isCased (c : Char) : Bool := c.isUpper || c.isLower

def pyIsUpper (w : String) : Bool :=
  w.toList.any isCased && w.toList.all fun c => !(isCased c) || c.isUpper

/-- The per-word conditions of `analyze_oov_patterns`, one per bucket. -/
def tagNumbers (w : String) : Bool := w.toList.any Char.isDigit

def tagHyphenated (w : String) : Bool := containsS "-" w

def tagContractions (w : String) : Bool := containsS "'" w

def tagUppercase (w : String) : Bool := pyIsUpper w && w.toList.length > 1

def tagSpecialChars (w : String) : Bool :=
  w.toList.any fun c => !c.isAlphanum && c != '-' && c != '\''

def tagShort (w : String) : Bool := w.toList.length ≤ 2

def tagLong (w : String) : Bool := w.toList.length ≥ 15

/-- The set of category tags a single word receives from
`analyze_oov_patterns` (the word is appended to exactly the buckets
whose flag is `true`). -/
structure Tags where
  numbers : Bool
  hyphenated : Bool
  contractions : Bool
  uppercase : Bool
  special_chars : Bool
  short : Bool
  long : Bool
  deriving DecidableEq, Repr

def classify (w : String) : Tags :=
  { numbers := tagNumbers w
    hyphenated := tagHyphenated w
    contractions := tagContractions w
    uppercase := tagUppercase w
    special_chars := tagSpecialChars w
    short := tagShort w
    long := tagLong w }

/-- The buckets built by `analyze_oov_patterns` over a word list: each
bucket collects, in document order, the words satisfying its condition. -/
structure Buckets where
  numbers : List String
  hyphenated : List String
  contractions : List String
  uppercase : List String
  special_chars : List String
  short : List String
  long : List String
  deriving DecidableEq, Repr

def analyze_oov_patterns (words : List String) : Buckets :=
  { numbers := words.filter tagNumbers
    hyphenated := words.filter tagHyphenated
    contractions := words.filter tagContractions
    uppercase := words.filter tagUppercase
    special_chars := words.filter tagSpecialChars
    short := words.filter tagShort
    long := words.filter tagLong }

/-- The spec's `uppercase` rule, stated in the spec's own words: "every
character is uppercase AND length > 1".  Kept separate from the source's
`tagUppercase` so the two can be compared. -/
def specUppercaseRule (w : String) : Bool :=
  (w.toList.all Char.isUpper) && w.toList.length > 1

/-- The comparison `sorted(word_frequencies.items(), key=..., reverse=True)`
realizes: descending by count.  Python's sort is stable and
`reverse=True` preserves the original order of ties; a stable sort under
a total preorder is a unique function, here computed by
`List.insertionSort`. -/
def freqGE (a b : String × ℕ) : Prop := b.2 ≤ a.2

instance : DecidableRel freqGE := fun a b => Nat.decLe b.2 a.2

instance : IsTotal (String × ℕ) freqGE :=
  ⟨fun a b => show b.2 ≤ a.2 ∨ a.2 ≤ b.2 from Nat.le_total b.2 a.2⟩

instance : IsTrans (String × ℕ) freqGE :=
  ⟨fun _ _ _ h1 h2 => Nat.le_trans h2 h1⟩

/-- The top-20 frequency ranking of `print_oov_report`:
`sorted(word_frequencies.items(), key=lambda x: x[1], reverse=True)[:20]`. -/
def sorted_freqs (m : List (String × ℕ)) : List (String × ℕ) :=
  (List.insertionSort freqGE m).take 20

/-- Python's `<=` on strings: lexicographic comparison by code point. -/
def lexLe : List Char → List Char → Bool
  | [], _ => true
  | _ :: _, [] => false
  | a :: as, b :: bs =>
    if a.toNat = b.toNat then lexLe as bs
    else decide (a.toNat < b.toNat)

/-- Relation `lexLe` lifted to `String`, as the sort relation Python `sorted`
uses on strings. -/
def strLe (a b : String) : Prop := lexLe a.toList b.toList = true

instance : DecidableRel strLe := fun _ _ => inferInstanceAs (Decidable (_ = true))

/-- Python `sorted` on strings: sort ascending in the lexicographic
(code-point) order (stability is irrelevant here, the order is total
and antisymmetric). -/
def pySortStrings (l : List String) : List String :=
  List.insertionSort strLe l

/-- The data `print_oov_report` renders (the rendering itself — spacing,
banners, recommendations — is out of scope): the statistics header, the
top-20 frequency ranking, the 50-capped sorted unique-word listing, and
the pattern-analysis section, which prints count and first-5 examples
for the `numbers`, `contractions`, `hyphenated` and `uppercase` buckets. -/
structure OovReport where
  unique_count : ℕ
  total_occurrences : Option ℕ
  top_freqs : List (String × ℕ)
  listing : List String
  listing_more : Option ℕ
  numbers_count : ℕ
  numbers_examples : List String
  contractions_count : ℕ
  contractions_examples : List String
  hyphenated_count : ℕ
  hyphenated_examples : List String
  uppercase_count : ℕ
  uppercase_examples : List String
  deriving DecidableEq, Repr

def print_oov_report_data (oov_words : List String)
    (freq : List (String × ℕ)) : OovReport :=
  let b := analyze_oov_patterns oov_words
  { unique_count := oov_words.length
    total_occurrences :=
      if freq.isEmpty then none else some (freq.map (·.2)).sum
    top_freqs := sorted_freqs freq
    listing := (pySortStrings oov_words).take 50
    listing_more :=
      if 50 ≤ oov_words.length then some (oov_words.length - 50) else none
    numbers_count := b.numbers.length
    numbers_examples := b.numbers.take 5
    contractions_count := b.contractions.length
    contractions_examples := b.contractions.take 5
    hyphenated_count := b.hyphenated.length
    hyphenated_examples := b.hyphenated.take 5
    uppercase_count := b.uppercase.length
    uppercase_examples := b.uppercase.take 5 }

/-- The word list `main` hands to `print_oov_report`: the file-based
words alone when the log contributed nothing, otherwise
`list(set(oov_words + log_oovs))`.  Python enumerates a `set` of strings
in an order that depends on the per-process hash seed, so the
enumeration is passed in as an explicit `order` argument; an order is
valid when it lists the distinct merged words exactly once
(`ValidSetOrder` below). -/
def main_oov_words (fileWords logWords order : List String) : List String :=
  if logWords.isEmpty then fileWords else order

/-- Validity of `order` as an enumeration of `set(fileWords + logWords)`:
a permutation of the distinct merged words. -/
def ValidSetOrder (fileWords logWords order : List String) : Prop :=
  order.Perm (fileWords ++ logWords).dedup

instance (fw lw o : List String) : Decidable (ValidSetOrder fw lw o) :=
  inferInstanceAs (Decidable (List.Perm _ _))

/-- One run of `analyze_oov.py`'s `main` on fixed file inputs, as the
report data it produces; `order` is the set-enumeration order the hash
seed happened to give. -/
def main_report (fileWords : List String) (freq : List (String × ℕ))
    (logWords order : List String) : OovReport :=
  print_oov_report_data (main_oov_words fileWords logWords order) freq

/-- Six distinct digit-bearing log words, used to exercise the
set-enumeration dependence of the pattern-summary examples. -/
def logWordsEx : List String := ["a1", "b2", "c3", "d4", "e5", "f6"]

/-! ## Order properties of the lexicographic comparison -/

theorem char_toNat_inj {a b : Char} (h : a.toNat = b.toNat) : a = b := by
  exact_mod_cast Char.ofNat_toNat a ▸ Char.ofNat_toNat b ▸ congrArg Char.ofNat h

theorem lexLe_total : ∀ a b : List Char, lexLe a b = true ∨ lexLe b a = true
  | [], _ => Or.inl rfl
  | _ :: _, [] => Or.inr rfl
  | a :: as, b :: bs => by
    by_cases h : a.toNat = b.toNat
    · rcases lexLe_total as bs with h' | h'
      · exact Or.inl (by simp [lexLe, h, h'])
      · exact Or.inr (by simp [lexLe, h.symm, h'])
    · rcases Nat.lt_or_ge a.toNat b.toNat with h' | h'
      · exact Or.inl (by simp [lexLe, h, h'])
      · have h'' : b.toNat < a.toNat :=
          lt_of_le_of_ne h' (fun e => h e.symm)
        exact Or.inr (by simp [lexLe, Ne.symm h, h''])

theorem lexLe_trans : ∀ a b c : List Char,
    lexLe a b = true → lexLe b c = true → lexLe a c = true
  | [], _, _, _, _ => rfl
  | _ :: _, [], _, h, _ => by simp [lexLe] at h
  | _ :: _, _ :: _, [], _, h => by simp [lexLe] at h
  | a :: as, b :: bs, c :: cs, h1, h2 => by
    by_cases hab : a.toNat = b.toNat <;> by_cases hbc : b.toNat = c.toNat
    · have hac : a.toNat = c.toNat := hab.trans hbc
      simp only [lexLe, if_pos hab, if_pos hbc, if_pos hac] at h1 h2 ⊢
      exact lexLe_trans as bs cs h1 h2
    · simp only [lexLe, if_pos hab, if_neg hbc] at h2
      have : a.toNat ≠ c.toNat := hab ▸ hbc
      simp only [lexLe, if_neg this]
      simpa [hab] using h2
    · simp only [lexLe, if_neg hab, if_pos hbc] at h1
      have : a.toNat ≠ c.toNat := hbc ▸ hab
      simp only [lexLe, if_neg this]
      simpa [hbc.symm] using h1
    · simp only [lexLe, if_neg hab] at h1
      simp only [lexLe, if_neg hbc] at h2
      have h1' := of_decide_eq_true h1
      have h2' := of_decide_eq_true h2
      have : a.toNat ≠ c.toNat := Nat.ne_of_lt (Nat.lt_trans h1' h2')
      simp [lexLe, this, Nat.lt_trans h1' h2']

theorem lexLe_antisymm : ∀ a b : List Char,
    lexLe a b = true → lexLe b a = true → a = b
  | [], [], _, _ => rfl
  | [], _ :: _, _, h => by simp [lexLe] at h
  | _ :: _, [], h, _ => by simp [lexLe] at h
  | a :: as, b :: bs, h1, h2 => by
    by_cases hab : a.toNat = b.toNat
    · simp only [lexLe, if_pos hab] at h1
      simp only [lexLe, if_pos hab.symm] at h2
      rw [char_toNat_inj hab, lexLe_antisymm as bs h1 h2]
    · simp only [lexLe, if_neg hab, if_neg (Ne.symm hab)] at h1 h2
      have h1' := of_decide_eq_true h1
      have h2' := of_decide_eq_true h2
      omega

instance : IsTotal String strLe := ⟨fun a b => lexLe_total a.toList b.toList⟩

instance : IsTrans String strLe :=
  ⟨fun a b c h1 h2 => lexLe_trans a.toList b.toList c.toList h1 h2⟩

instance : IsAntisymm String strLe :=
  ⟨fun a b h1 h2 => String.ext (lexLe_antisymm a.toList b.toList h1 h2)⟩

/-! ## Lemmas about the interval-scanning loop -/

/-- The tier tracked after one step: a tier-name declaration on the line
overrides, otherwise the previous tier persists. -/
theorem scanStep_current_tier (st : TGScan) (l : List Char) :
    (scanStep st l).current_tier =
      match declTier? (pyStrip l) with
      | some t => some t
      | none => st.current_tier := by
  unfold scanStep
  cases hd : declTier? (pyStrip l) <;>
    simp only [hd] <;>
    by_cases ht : containsL "text =".toList (pyStrip l) = true <;>
    simp [ht] <;>
    split <;> (try split) <;> (try split) <;> (try split) <;> rfl

/-- A line without a `text =` field leaves all four counters
unchanged. -/
theorem scanStep_no_text (st : TGScan) (l : List Char)
    (h : containsL "text =".toList (pyStrip l) = false) :
    (scanStep st l).interval_count = st.interval_count ∧
    (scanStep st l).word_count = st.word_count ∧
    (scanStep st l).phone_count = st.phone_count ∧
    (scanStep st l).empty_intervals = st.empty_intervals := by
  have h' : containsL ['t', 'e', 'x', 't', ' ', '='] (pyStrip l) = false := h
  unfold scanStep
  simp [h']

/-- A line with a `text =` field is counted as exactly one interval, and
increments exactly the counter selected by its content and the effective
tier. -/
theorem scanStep_text (st : TGScan) (l : List Char)
    (h : containsL "text =".toList (pyStrip l) = true) :
    (scanStep st l).interval_count = st.interval_count + 1 ∧
    (scanStep st l).empty_intervals = st.empty_intervals
      + (if (textContent (pyStrip l)).isEmpty = true then 1 else 0) ∧
    (scanStep st l).word_count = st.word_count
      + (if (textContent (pyStrip l)).isEmpty = false ∧
            effTier st l = some Tier.words then 1 else 0) ∧
    (scanStep st l).phone_count = st.phone_count
      + (if (textContent (pyStrip l)).isEmpty = false ∧
            effTier st l = some Tier.phones then 1 else 0) := by
  have h' : containsL ['t', 'e', 'x', 't', ' ', '='] (pyStrip l) = true := h
  unfold scanStep effTier
  simp only [h', if_true]
  by_cases he : (textContent (pyStrip l)).isEmpty = true
  · simp [h', he]
  · rw [Bool.not_eq_true] at he
    by_cases hw : (match declTier? (pyStrip l) with
        | some t => some t
        | none => st.current_tier) = some Tier.words
    · simp [h', he, hw]
    · by_cases hp : (match declTier? (pyStrip l) with
          | some t => some t
          | none => st.current_tier) = some Tier.phones
      · simp [h', he, hw, hp]
      · simp [h', he, hw, hp]

/-- A tier assignment persists over any run of lines carrying no
tier-name declaration. -/
theorem foldl_scanStep_tier_persists (L : List (List Char)) :
    ∀ st : TGScan, (∀ l ∈ L, declTier? (pyStrip l) = none) →
      (L.foldl scanStep st).current_tier = st.current_tier := by
  induction L with
  | nil => intro st _; rfl
  | cons l L ih =>
    intro st h
    have h1 : declTier? (pyStrip l) = none := h l (List.mem_cons_self l L)
    have h2 : ∀ l' ∈ L, declTier? (pyStrip l') = none :=
      fun l' hl' => h l' (List.mem_cons_of_mem l hl')
    rw [List.foldl_cons, ih (scanStep st l) h2, scanStep_current_tier, h1]

theorem scanStep_inv {st : TGScan} (l : List Char) (h : st.Inv) :
    (scanStep st l).Inv := by
  by_cases ht : containsL "text =".toList (pyStrip l) = true
  · obtain ⟨h1, h2, h3, h4⟩ := scanStep_text st l ht
    unfold TGScan.Inv at h ⊢
    rw [h1, h2, h3, h4]
    have e1 : (if (textContent (pyStrip l)).isEmpty = true then 1 else 0)
        + (if (textContent (pyStrip l)).isEmpty = false ∧
              effTier st l = some Tier.words then 1 else 0)
        + (if (textContent (pyStrip l)).isEmpty = false ∧
              effTier st l = some Tier.phones then 1 else 0) ≤ 1 := by
      by_cases he : (textContent (pyStrip l)).isEmpty = true
      · simp [he]
      · rw [Bool.not_eq_true] at he
        by_cases hw : effTier st l = some Tier.words
        · have hp : ¬ effTier st l = some Tier.phones := by simp [hw]
          simp [he, hw, hp]
        · by_cases hp : effTier st l = some Tier.phones <;> simp [he, hw, hp]
    omega
  · rw [Bool.not_eq_true] at ht
    obtain ⟨h1, h2, h3, h4⟩ := scanStep_no_text st l ht
    unfold TGScan.Inv at h ⊢
    rw [h1, h2, h3, h4]
    exact h

theorem foldl_scanStep_inv (L : List (List Char)) :
    ∀ st : TGScan, st.Inv → (L.foldl scanStep st).Inv := by
  induction L with
  | nil => exact fun _ h => h
  | cons l L ih => exact fun st h => ih (scanStep st l) (scanStep_inv l h)

/-! ## Lemmas about the validation-log loop -/

theorem vStep_error_count (st : VStats) (l : List Char) :
    (vStep st l).error_count
      = st.error_count + (if isErrorLine l then 1 else 0) := by
  unfold vStep
  by_cases he : isErrorLine l <;> simp [he] <;> split <;> rfl

theorem foldl_vStep_error_count (L : List (List Char)) :
    ∀ st : VStats,
      (L.foldl vStep st).error_count = st.error_count + L.countP isErrorLine := by
  induction L with
  | nil => intro st; simp
  | cons l L ih =>
    intro st
    rw [List.foldl_cons, ih (vStep st l), vStep_error_count,
      List.countP_cons]
    by_cases he : isErrorLine l <;> simp [he] <;> omega

/-! ## Lemmas about the frequency map -/

theorem alistGet_alistIncr (m : List (String × ℕ)) (u w : String) :
    alistGet (alistIncr m u) w
      = alistGet m w + (if w = u then 1 else 0) := by
  induction m with
  | nil =>
    by_cases h : w = u
    · subst h; simp [alistIncr, alistGet, List.find?]
    · simp [alistIncr, alistGet, List.find?,
        show (u == w) = false from beq_eq_false_iff_ne.mpr (Ne.symm h), h]
  | cons e m ih =>
    by_cases he : e.1 = u
    · rw [show alistIncr (e :: m) u = (e.1, e.2 + 1) :: m from by
        simp [alistIncr, he]]
      by_cases hw : w = u
      · subst hw
        simp [alistGet, List.find?, he, show (e.1 == w) = true from beq_iff_eq.mpr he]
      · have : (e.1 == w) = false := beq_eq_false_iff_ne.mpr (he ▸ Ne.symm hw)
        simp [alistGet, List.find?, this, hw]
    · rw [show alistIncr (e :: m) u = e :: alistIncr m u from by
        simp [alistIncr, he]]
      by_cases hew : e.1 = w
      · have hwu : ¬ w = u := fun hh => he (hew.trans hh)
        simp [alistGet, List.find?, show (e.1 == w) = true from beq_iff_eq.mpr hew, hwu]
      · have : (e.1 == w) = false := beq_eq_false_iff_ne.mpr hew
        simp only [alistGet, List.find?, this]
        exact ih

theorem foldl_alistIncr_count (ws : List String) :
    ∀ (m : List (String × ℕ)) (w : String),
      alistGet (ws.foldl alistIncr m) w = alistGet m w + ws.count w := by
  induction ws with
  | nil => intro m w; simp
  | cons u ws ih =>
    intro m w
    rw [List.foldl_cons, ih (alistIncr m u) w, alistGet_alistIncr,
      List.count_cons]
    by_cases h : w = u
    · subst h; simp; omega
    · have hb : (u == w) = false := beq_eq_false_iff_ne.mpr (Ne.symm h)
      simp [h, hb]

/-- Inserting a word keeps the key sequence, only appending the word at
the end when it is new: the map's keys stay in first-insertion order. -/
theorem alistIncr_keys (m : List (String × ℕ)) (u : String) :
    (alistIncr m u).map Prod.fst
      = if u ∈ m.map Prod.fst then m.map Prod.fst
        else m.map Prod.fst ++ [u] := by
  induction m with
  | nil => simp [alistIncr]
  | cons e m ih =>
    by_cases he : e.1 = u
    · rw [show alistIncr (e :: m) u = (e.1, e.2 + 1) :: m from by
        simp [alistIncr, he]]
      simp [he]
    · rw [show alistIncr (e :: m) u = e :: alistIncr m u from by
        simp [alistIncr, he]]
      by_cases hm : u ∈ m.map Prod.fst <;>
        simp [List.map_cons, hm, Ne.symm he, ih]

/-! ## Lemmas about the remaining string helpers -/

theorem containsL_singleton (c : Char) :
    ∀ l : List Char, containsL [c] l = l.any (fun x => c == x) := by
  intro l
  induction l with
  | nil => rfl
  | cons x r ih =>
    show ((c == x && startsWithL [] r) || containsL [c] r) = _
    rw [ih]
    simp [startsWithL]

theorem afterFirst_eq_none (sep : Char) :
    ∀ l : List Char, containsL [sep] l = false → afterFirst sep l = none := by
  intro l
  induction l with
  | nil => intro _; rfl
  | cons x r ih =>
    intro h
    rw [containsL_singleton] at h
    simp only [List.any_cons, Bool.or_eq_false_iff] at h
    obtain ⟨h1, h2⟩ := h
    have hx : (x == sep) = false :=
      beq_eq_false_iff_ne.mpr fun e => beq_eq_false_iff_ne.mp h1 e.symm
    show (if (x == sep) = true then some r else afterFirst sep r) = none
    rw [hx]
    simp only [Bool.false_eq_true, if_false]
    exact ih (by rw [containsL_singleton]; simpa using h2)

theorem takeWhile_all_true (p : Char → Bool) :
    ∀ l : List Char, (l.takeWhile p).all p = true := by
  intro l
  rw [List.all_eq_true]
  intro x hx
  exact List.mem_takeWhile_imp hx

theorem findallAux_mem (lit : List Char) :
    ∀ (fuel : ℕ) (content w : List Char), w ∈ findallAux lit fuel content →
      w ≠ [] ∧ w.all isWordChar = true := by
  intro fuel
  induction fuel with
  | zero => intro content w h; simp [findallAux] at h
  | succ fuel ih =>
    intro content w h
    cases content with
    | nil => simp [findallAux] at h
    | cons c rest =>
      rw [findallAux] at h
      by_cases hs : startsWithL (lowerL lit) (lowerL (c :: rest)) = true
      · simp only [hs, if_true] at h
        by_cases hw : ((((c :: rest).drop lit.length).dropWhile
            Char.isWhitespace).takeWhile isWordChar).isEmpty = true
        · rw [if_pos hw] at h
          exact ih rest w h
        · rw [if_neg hw] at h
          rcases List.mem_cons.mp h with hne | hmem
          · subst hne
            refine ⟨fun he => hw (by rw [he]; rfl), takeWhile_all_true _ _⟩
          · exact ih _ w hmem
      · simp only [Bool.not_eq_true] at hs
        rw [hs] at h
        simp only [Bool.false_eq_true, if_false] at h
        exact ih rest w h

/-- Every word produced by any of the four extraction patterns is a
nonempty run of `\w` characters. -/
theorem extract_words_shape (content : String) (w : String)
    (h : w ∈ extract_oov_words_from_log content) :
    w ≠ "" ∧ w.toList.all isWordChar = true := by
  unfold extract_oov_words_from_log at h
  rw [List.mem_map] at h
  obtain ⟨l, hl, hw⟩ := h
  have hfold : ∀ (pats : List String) (acc : List (List Char)),
      l ∈ pats.foldl (fun acc pat => acc ++ findall pat.toList content.toList) acc →
      l ∈ acc ∨ ∃ pat ∈ pats, l ∈ findall pat.toList content.toList := by
    intro pats
    induction pats with
    | nil => intro acc h; exact Or.inl h
    | cons p ps ih =>
      intro acc h
      rcases ih _ h with h' | h'
      · rcases List.mem_append.mp h' with h'' | h''
        · exact Or.inl h''
        · exact Or.inr ⟨p, List.mem_cons_self p ps, h''⟩
      · obtain ⟨pat, hp, hm⟩ := h'
        exact Or.inr ⟨pat, List.mem_cons_of_mem p hp, hm⟩
  rcases hfold oovPatterns [] hl with h' | h'
  · simp at h'
  · obtain ⟨pat, _, hm⟩ := h'
    obtain ⟨hne, hall⟩ := findallAux_mem pat.toList _ _ l hm
    constructor
    · intro he
      exact hne (congrArg String.toList (hw ▸ he))
    · rw [← hw] at *
      exact hall

/-- Sorting is a function of the multiset of words: two enumerations of
the same set sort identically. -/
theorem pySortStrings_perm_eq {l1 l2 : List String} (h : l1.Perm l2) :
    pySortStrings l1 = pySortStrings l2 := by
  apply List.eq_of_perm_of_sorted (r := strLe)
  · exact ((List.perm_insertionSort strLe l1).trans h).trans
      (List.perm_insertionSort strLe l2).symm
  · exact List.sorted_insertionSort strLe l1
  · exact List.sorted_insertionSort strLe l2

/-! ## Lemmas about the `xmax` search -/

theorem findXmax_first_parse (v : ℚ) :
    ∀ (pre : List (List Char)) (l : List Char) (post : List (List Char)),
      (∀ l' ∈ pre, xmaxVal? l' = none) → xmaxVal? l = some v →
      findXmax (pre ++ l :: post) = v := by
  intro pre
  induction pre with
  | nil =>
    intro l post _ hl
    rw [List.nil_append]
    simp only [findXmax]
    rw [hl]
  | cons p pre ih =>
    intro l post hpre hl
    have hp : xmaxVal? p = none := hpre p (List.mem_cons_self p pre)
    rw [List.cons_append]
    simp only [findXmax]
    rw [hp]
    exact ih l post (fun l' hl' => hpre l' (List.mem_cons_of_mem p hl')) hl

theorem findXmax_all_fail :
    ∀ lines : List (List Char),
      (∀ l ∈ lines, xmaxVal? l = none) → findXmax lines = 0 := by
  intro lines
  induction lines with
  | nil => intro _; rfl
  | cons l ls ih =>
    intro h
    simp only [findXmax]
    rw [h l (List.mem_cons_self l ls)]
    exact ih fun l' hl' => h l' (List.mem_cons_of_mem l hl')

/-- A word made of `\w` characters cannot contain a non-`\w` character. -/
theorem not_containsL_of_all_wordChar (w : List Char) (c : Char)
    (hall : w.all isWordChar = true) (hc : isWordChar c = false) :
    containsL [c] w = false := by
  by_cases h : containsL [c] w = true
  · exfalso
    rw [containsL_singleton, List.any_eq_true] at h
    obtain ⟨x, hx, he⟩ := h
    have hxc : c = x := beq_iff_eq.mp he
    have := List.all_eq_true.mp hall x hx
    rw [← hxc, hc] at this
    cases this
  · simpa using h

/-- On a word made of `\w` characters, the `special_chars` condition
holds exactly when the word contains an underscore: `_` is the one `\w`
character that is neither alphanumeric nor `-` nor `'`. -/
theorem special_iff_underscore (w : List Char) (hall : w.all isWordChar = true) :
    (w.any fun c => !c.isAlphanum && c != '-' && c != '\'') = true ↔ '_' ∈ w := by
  constructor
  · intro h
    rw [List.any_eq_true] at h
    obtain ⟨c, hc, hcond⟩ := h
    have hw := List.all_eq_true.mp hall c hc
    simp only [Bool.and_eq_true, Bool.not_eq_true', bne_iff_ne] at hcond
    obtain ⟨⟨h1, _⟩, _⟩ := hcond
    unfold isWordChar at hw
    rcases (Bool.or_eq_true _ _).mp hw with h2 | h2
    · rw [h1] at h2; cases h2
    · exact (beq_iff_eq.mp h2) ▸ hc
  · intro h
    rw [List.any_eq_true]
    exact ⟨'_', h, by decide⟩

/-! ## The claims -/

/-- C1: the annotation parser counts each line with a `text =` field as
one interval, incrementing `empty_intervals` for empty content,
`word_count` for non-empty content on the `words` tier and `phone_count`
on the `phones` tier; the current tier is set by each tier-name
declaration and persists over all subsequent declaration-free lines; on
the spec's two-tier example the counts are 6 / 2 / 3 / 1. -/
theorem read_textgrid_tier_scoped_counting :
    read_textgrid exampleTG =
      { total_duration := 0, interval_count := 6, word_count := 2,
        phone_count := 3, empty_intervals := 1, has_errors := false } ∧
    (∀ (st : TGScan) (l : List Char) (t : Tier) (L : List (List Char)),
      declTier? (pyStrip l) = some t →
      (∀ l' ∈ L, declTier? (pyStrip l') = none) →
      ((l :: L).foldl scanStep st).current_tier = some t) ∧
    (∀ (st : TGScan) (l : List Char),
      containsL "text =".toList (pyStrip l) = true →
      (scanStep st l).interval_count = st.interval_count + 1 ∧
      (scanStep st l).empty_intervals = st.empty_intervals
        + (if (textContent (pyStrip l)).isEmpty = true then 1 else 0) ∧
      (scanStep st l).word_count = st.word_count
        + (if (textContent (pyStrip l)).isEmpty = false ∧
              effTier st l = some Tier.words then 1 else 0) ∧
      (scanStep st l).phone_count = st.phone_count
        + (if (textContent (pyStrip l)).isEmpty = false ∧
              effTier st l = some Tier.phones then 1 else 0)) := by
  refine ⟨by decide, ?_, scanStep_text⟩
  intro st l t L hd hL
  rw [List.foldl_cons, foldl_scanStep_tier_persists L _ hL,
    scanStep_current_tier, hd]

/-- Witness for C1: a `words` declaration scopes a following interval
line, and an interval line is counted exactly once. -/
theorem read_textgrid_tier_scoped_counting_inst :
    (([("name = \"words\"").toList, ("text = \"hi\"").toList].foldl
        scanStep TGScan.init).current_tier = some Tier.words) ∧
    (scanStep TGScan.init ("text = \"x\"").toList).interval_count = 1 :=
  ⟨read_textgrid_tier_scoped_counting.2.1 TGScan.init _ Tier.words
      [("text = \"hi\"").toList] (by decide) (by decide),
   (read_textgrid_tier_scoped_counting.2.2 TGScan.init
      ("text = \"x\"").toList (by decide)).1⟩

/-- C2: a validation-log line increments `error_count` exactly when it
contains `'error'` case-insensitively, contains none of the explicit
no-error phrases, and contains one of the true-error indicator phrases;
the count is exactly the number of such lines (one increment per line),
and a line with a no-error phrase is never counted. -/
theorem parse_validation_log_error_count_spec :
    (∀ lines : List String,
      (parse_validation_log lines).error_count
        = (lines.map String.toList).countP isErrorLine) ∧
    (∀ l : List Char,
      (skipPhrases.any fun p => containsL p.toList (lowerL l)) = true →
      isErrorLine l = false) ∧
    (∀ l : List Char, isErrorLine l = true →
      containsL "error".toList (lowerL l) = true ∧
      (errPhrases.any fun p => containsL p.toList (lowerL l)) = true) := by
  refine ⟨?_, ?_, ?_⟩
  · intro lines
    unfold parse_validation_log
    rw [foldl_vStep_error_count]
    simp [VStats.init]
  · intro l h
    unfold isErrorLine
    simp only [h]
    simp
  · intro l h
    unfold isErrorLine at h
    simp only [Bool.and_eq_true, Bool.not_eq_true'] at h
    exact ⟨h.1.1, h.2⟩

/-- Witness for C2: `"Error: x failed"` is counted, `"no errors found"`
contains `'error'` but is excluded. -/
theorem parse_validation_log_error_count_inst :
    (parse_validation_log ["Error: x failed", "no errors found"]).error_count
      = (["Error: x failed", "no errors found"].map String.toList).countP
          isErrorLine ∧
    isErrorLine ("no errors found").toList = false ∧
    (parse_validation_log ["Error: x failed", "no errors found"]).error_count
      = 1 :=
  ⟨parse_validation_log_error_count_spec.1 _,
   parse_validation_log_error_count_spec.2.1 _ (by decide),
   by decide⟩

/-- C3: `total_duration` comes from the first line whose `xmax = <float>`
field parses — once it is found the scan `break`s, so all later `xmax`
lines are ignored whatever they contain — and a malformed (non-numeric)
`xmax` line never raises: it is skipped, and when no `xmax` line parses
the 0.0 default stands. -/
theorem read_textgrid_xmax_first_parse :
    ∀ (pre : List String) (l : String) (post lines : List String) (v : ℚ),
      (∀ l' ∈ pre, xmaxVal? l'.toList = none) →
      xmaxVal? l.toList = some v →
      (∀ l' ∈ lines, xmaxVal? l'.toList = none) →
      (read_textgrid (pre ++ l :: post)).total_duration = v ∧
      (read_textgrid lines).total_duration = 0 := by
  intro pre l post lines v hpre hl hlines
  constructor
  · show findXmax ((pre ++ l :: post).map String.toList) = v
    rw [List.map_append, List.map_cons]
    apply findXmax_first_parse v _ _ _ _ hl
    intro l' hl'
    obtain ⟨x, hx, hxe⟩ := List.mem_map.mp hl'
    exact hxe ▸ hpre x hx
  · show findXmax (lines.map String.toList) = 0
    apply findXmax_all_fail
    intro l' hl'
    obtain ⟨x, hx, hxe⟩ := List.mem_map.mp hl'
    exact hxe ▸ hlines x hx

/-- Witness for C3: a malformed `xmax = abc` line is skipped without an
exception (the later parseable line wins), and a file whose only `xmax`
line is malformed keeps the 0.0 default. -/
theorem read_textgrid_xmax_first_parse_inst :
    (read_textgrid ["xmax = abc", "xmax = 3", "xmax = 99"]).total_duration = 3 ∧
    (read_textgrid ["xmax = oops"]).total_duration = 0 :=
  read_textgrid_xmax_first_parse ["xmax = abc"] "xmax = 3" ["xmax = 99"]
    ["xmax = oops"] 3 (by decide) (by decide) (by decide)

/-- C4 (counterexample): the claimed rule "`uppercase` iff every
character is uppercase AND length > 1" fails on the code: `"CO2"` is
tagged `uppercase` (Python `str.isupper` ignores uncased characters such
as digits) although `'2'` is not an uppercase character. -/
theorem classify_uppercase_rule_counterexample :
    (classify "CO2").uppercase = true ∧
    specUppercaseRule "CO2" = false ∧
    ¬ (∀ w : String, (classify w).uppercase = specUppercaseRule w) :=
  ⟨by decide, by decide, fun h => absurd (h "CO2") (by decide)⟩

/-- C4 (amended): `classify` returns exactly the tags of the seven code
rules, where `uppercase` means: at least one cased character, every
cased character uppercase, and length > 1 (Python `str.isupper`); all
of the claim's examples hold. -/
theorem classify_code_rules :
    (∀ w : String, (classify w).uppercase = true ↔
      ((∃ c ∈ w.toList, isCased c = true) ∧
       (∀ c ∈ w.toList, isCased c = true → c.isUpper = true) ∧
       1 < w.toList.length)) ∧
    (∀ w : String, (classify w).numbers = true ↔ ∃ c ∈ w.toList, c.isDigit = true) ∧
    (∀ w : String, (classify w).hyphenated = true ↔ '-' ∈ w.toList) ∧
    (∀ w : String, (classify w).contractions = true ↔ '\'' ∈ w.toList) ∧
    (∀ w : String, (classify w).special_chars = true ↔
      ∃ c ∈ w.toList, c.isAlphanum = false ∧ c ≠ '-' ∧ c ≠ '\'') ∧
    (∀ w : String, (classify w).short = true ↔ w.toList.length ≤ 2) ∧
    (∀ w : String, (classify w).long = true ↔ 15 ≤ w.toList.length) ∧
    (classify "NASA").uppercase = true ∧
    (classify "I").uppercase = false ∧
    (classify "co2").numbers = true ∧
    (classify "don't").contractions = true ∧
    (classify "ab").short = true ∧
    (classify "counterproductive").long = true ∧
    (classify "vocabulary").long = false := by
  refine ⟨?_, ?_, ?_, ?_, ?_, ?_, ?_,
    by decide, by decide, by decide, by decide, by decide, by decide, by decide⟩
  · intro w
    show (pyIsUpper w && w.toList.length > 1) = true ↔ _
    unfold pyIsUpper
    simp only [Bool.and_eq_true, List.any_eq_true, List.all_eq_true,
      decide_eq_true_eq, Bool.or_eq_true, Bool.not_eq_true']
    constructor
    · rintro ⟨⟨⟨c, hc, hcc⟩, hall⟩, hlen⟩
      refine ⟨⟨c, hc, hcc⟩, ?_, hlen⟩
      intro c' hc' hcc'
      rcases hall c' hc' with h1 | h1
      · rw [h1] at hcc'; cases hcc'
      · exact h1
    · rintro ⟨⟨c, hc, hcc⟩, hall, hlen⟩
      refine ⟨⟨⟨c, hc, hcc⟩, ?_⟩, hlen⟩
      intro c' hc'
      by_cases hb : isCased c' = true
      · exact Or.inr (hall c' hc' hb)
      · exact Or.inl (by simpa using hb)
  · intro w
    show (w.toList.any Char.isDigit) = true ↔ _
    simp [List.any_eq_true]
  · intro w
    show containsS "-" w = true ↔ _
    unfold containsS
    rw [show ("-".toList) = ['-'] from rfl, containsL_singleton]
    simp only [List.any_eq_true, beq_iff_eq]
    constructor
    · rintro ⟨c, hc, he⟩; exact he ▸ hc
    · intro h; exact ⟨'-', h, rfl⟩
  · intro w
    show containsS "'" w = true ↔ _
    unfold containsS
    rw [show ("'".toList) = ['\''] from rfl, containsL_singleton]
    simp only [List.any_eq_true, beq_iff_eq]
    constructor
    · rintro ⟨c, hc, he⟩; exact he ▸ hc
    · intro h; exact ⟨'\'', h, rfl⟩
  · intro w
    show (w.toList.any fun c => !c.isAlphanum && c != '-' && c != '\'') = true ↔ _
    simp only [List.any_eq_true, Bool.and_eq_true, Bool.not_eq_true',
      bne_iff_ne]
    constructor
    · rintro ⟨c, hc, ⟨h1, h2⟩, h3⟩; exact ⟨c, hc, h1, h2, h3⟩
    · rintro ⟨c, hc, h1, h2, h3⟩; exact ⟨c, hc, ⟨h1, h2⟩, h3⟩
  · intro w
    show (decide (w.toList.length ≤ 2)) = true ↔ _
    simp
  · intro w
    show (decide (w.toList.length ≥ 15)) = true ↔ _
    simp [ge_iff_le]

/-- C5 (counterexample): the pipeline's output is not a function of the
file inputs alone: with log-extracted words present, two hash-seed set
enumerations of the same merged words — both valid enumerations — give
different pattern-summary example words, so two runs over unchanged
inputs need not be byte-identical. -/
theorem main_report_depends_on_set_order :
    ValidSetOrder [] logWordsEx logWordsEx ∧
    ValidSetOrder [] logWordsEx logWordsEx.reverse ∧
    main_report [] [] logWordsEx logWordsEx
      ≠ main_report [] [] logWordsEx logWordsEx.reverse ∧
    (main_report [] [] logWordsEx logWordsEx).numbers_examples
      ≠ (main_report [] [] logWordsEx logWordsEx.reverse).numbers_examples := by
  refine ⟨by decide, by decide, ?_, by decide⟩
  intro h
  exact absurd (congrArg OovReport.numbers_examples h) (by decide)

/-- C5 (amended): every reported value except the per-category example
words is invariant across runs: for any two valid set-enumeration orders
the counts, the frequency ranking, the sorted 50-capped listing and the
per-category totals coincide; only the `[:5]` example lists depend on
the enumeration order. -/
theorem main_report_core_order_invariant :
    ∀ (fw : List String) (freq : List (String × ℕ)) (lw o1 o2 : List String),
      ValidSetOrder fw lw o1 → ValidSetOrder fw lw o2 →
      (main_report fw freq lw o1).unique_count
        = (main_report fw freq lw o2).unique_count ∧
      (main_report fw freq lw o1).total_occurrences
        = (main_report fw freq lw o2).total_occurrences ∧
      (main_report fw freq lw o1).top_freqs
        = (main_report fw freq lw o2).top_freqs ∧
      (main_report fw freq lw o1).listing
        = (main_report fw freq lw o2).listing ∧
      (main_report fw freq lw o1).listing_more
        = (main_report fw freq lw o2).listing_more ∧
      (main_report fw freq lw o1).numbers_count
        = (main_report fw freq lw o2).numbers_count ∧
      (main_report fw freq lw o1).contractions_count
        = (main_report fw freq lw o2).contractions_count ∧
      (main_report fw freq lw o1).hyphenated_count
        = (main_report fw freq lw o2).hyphenated_count ∧
      (main_report fw freq lw o1).uppercase_count
        = (main_report fw freq lw o2).uppercase_count := by
  intro fw freq lw o1 o2 h1 h2
  by_cases hlw : lw.isEmpty = true
  · unfold main_report main_oov_words
    rw [hlw]
    simp
  · have hperm : o1.Perm o2 := h1.trans h2.symm
    have hwords : ∀ o, main_oov_words fw lw o = o := by
      intro o; unfold main_oov_words; rw [if_neg hlw]
    have hflen : ∀ p : String → Bool,
        (o1.filter p).length = (o2.filter p).length := by
      intro p
      rw [← List.countP_eq_length_filter, ← List.countP_eq_length_filter]
      exact hperm.countP_eq p
    unfold main_report print_oov_report_data analyze_oov_patterns
    rw [hwords o1, hwords o2]
    refine ⟨hperm.length_eq, rfl, rfl, ?_, ?_, ?_, ?_, ?_, ?_⟩
    · rw [pySortStrings_perm_eq hperm]
    · rw [hperm.length_eq]
    · exact hflen tagNumbers
    · exact hflen tagContractions
    · exact hflen tagHyphenated
    · exact hflen tagUppercase

/-- Witness for C5 (amended): the two enumerations of the
counterexample agree on every field but the example lists. -/
theorem main_report_core_order_invariant_inst :
    (main_report [] [] logWordsEx logWordsEx).unique_count
      = (main_report [] [] logWordsEx logWordsEx.reverse).unique_count ∧
    (main_report [] [] logWordsEx logWordsEx).listing
      = (main_report [] [] logWordsEx logWordsEx.reverse).listing :=
  ⟨(main_report_core_order_invariant [] [] logWordsEx logWordsEx
      logWordsEx.reverse (by decide) (by decide)).1,
   (main_report_core_order_invariant [] [] logWordsEx logWordsEx
      logWordsEx.reverse (by decide) (by decide)).2.2.2.1⟩

/-- C6: the frequency ranking sorts descending by count with ties kept
in the order the words were first inserted into the map (the map's key
sequence is itself in first-insertion order), capped at 20 entries; on
`{"cat": 3, "dog": 3, "bird": 1}` in that insertion order the ranking is
`cat, dog, bird`. -/
theorem sorted_freqs_ranking_spec :
    sorted_freqs [("cat", 3), ("dog", 3), ("bird", 1)]
      = [("cat", 3), ("dog", 3), ("bird", 1)] ∧
    (∀ m : List (String × ℕ), (sorted_freqs m).Sorted freqGE) ∧
    (∀ m : List (String × ℕ), (List.insertionSort freqGE m).Perm m) ∧
    (∀ m : List (String × ℕ), sorted_freqs m = (List.insertionSort freqGE m).take 20) ∧
    (∀ m : List (String × ℕ), (sorted_freqs m).length ≤ 20) ∧
    (∀ (m : List (String × ℕ)) (a b : String × ℕ), a.2 = b.2 →
      List.Sublist [a, b] m → List.Sublist [a, b] (List.insertionSort freqGE m)) ∧
    (∀ (m : List (String × ℕ)) (w : String),
      (alistIncr m w).map Prod.fst
        = if w ∈ m.map Prod.fst then m.map Prod.fst
          else m.map Prod.fst ++ [w]) := by
  refine ⟨by decide, ?_, fun m => List.perm_insertionSort freqGE m,
    fun _ => rfl, fun m => List.length_take_le 20 _, ?_, alistIncr_keys⟩
  · intro m
    exact List.Pairwise.sublist (List.take_sublist 20 _)
      (List.sorted_insertionSort freqGE m)
  · intro m a b hab hsub
    exact List.pair_sublist_insertionSort (le_of_eq hab.symm) hsub

/-- Witness for C6: the `cat`/`dog` tie (both count 3) keeps its
original order through the sort. -/
theorem sorted_freqs_ranking_spec_inst :
    List.Sublist [("cat", 3), ("dog", 3)]
      (List.insertionSort freqGE [("cat", 3), ("dog", 3), ("bird", 1)]) :=
  sorted_freqs_ranking_spec.2.2.2.2.2.1
    [("cat", 3), ("dog", 3), ("bird", 1)] ("cat", 3) ("dog", 3)
    rfl (by decide)

/-- C7: a per-utterance line is split at its first `':'` only (later
colons stay inside the payload words), each payload word bumps its
cumulative count once per occurrence, and a line without `':'`
contributes nothing; `"utt001.wav: cat cat dog"` gives `cat ↦ 2`,
`dog ↦ 1`. -/
theorem read_oov_files_frequency_spec :
    read_oov_utterances ["utt001.wav: cat cat dog"] = [("cat", 2), ("dog", 1)] ∧
    read_oov_utterances ["u.wav: a:b c"] = [("a:b", 1), ("c", 1)] ∧
    (∀ (m : List (String × ℕ)) (l : List Char),
      containsL [':'] l = false → uttLineStep m l = m) ∧
    (∀ (m : List (String × ℕ)) (l : List Char) (w : String),
      alistGet (uttLineStep m l) w
        = alistGet m w
          + (((uttPayloadWords l).map fun x => String.mk x).count w)) := by
  refine ⟨by decide, by decide, ?_, ?_⟩
  · intro m l h
    unfold uttLineStep uttPayloadWords
    rw [afterFirst_eq_none ':' l h]
    rfl
  · intro m l w
    unfold uttLineStep
    exact foldl_alistIncr_count _ m w

/-- Witness for C7: a line without a colon leaves the map untouched. -/
theorem read_oov_files_frequency_spec_inst :
    uttLineStep [("x", 1)] ("no colon here").toList = [("x", 1)] :=
  read_oov_files_frequency_spec.2.2.1 [("x", 1)] _ (by decide)

/-- C8: coverage is `(textgrid_count / wav_count) × 100` whenever
`wav_count > 0` and `0.0` when `wav_count = 0`; in particular
`calculate_coverage 10 8 = 80.0` and `calculate_coverage 0 0 = 0.0`. -/
theorem calculate_coverage_spec :
    calculate_coverage 10 8 = 80 ∧
    calculate_coverage 0 0 = 0 ∧
    (∀ t : ℕ, calculate_coverage 0 t = 0) ∧
    (∀ w t : ℕ, w ≠ 0 →
      calculate_coverage w t = ((t : ℚ) / (w : ℚ)) * 100 ∧
      calculate_coverage w t * (w : ℚ) = (t : ℚ) * 100) := by
  refine ⟨by norm_num [calculate_coverage], by norm_num [calculate_coverage],
    fun t => by norm_num [calculate_coverage], ?_⟩
  intro w t hw
  have hw' : (w : ℚ) ≠ 0 := Nat.cast_ne_zero.mpr hw
  constructor
  · unfold calculate_coverage
    rw [if_neg hw]
  · unfold calculate_coverage
    rw [if_neg hw]
    field_simp

/-- Witness for C8: at 10 audio files and 8 annotation files the
coverage satisfies `coverage × 10 = 8 × 100`, i.e. 80%. -/
theorem calculate_coverage_spec_inst :
    calculate_coverage 10 8 * ((10 : ℕ) : ℚ) = ((8 : ℕ) : ℚ) * 100 :=
  (calculate_coverage_spec.2.2.2 10 8 (by decide)).2

/-- C9: every record the parser returns — including aborted scans,
which return the counters accumulated before the exception with
`has_errors = true` — satisfies
`word_count + phone_count + empty_interval_count ≤ interval_count` and
`empty_interval_count ≤ interval_count` (all counters are naturals, so
non-negativity is inherent). -/
theorem annotation_stats_invariants :
    ∀ (lines : List String) (k : ℕ),
      (read_textgrid_run lines k).word_count
          + (read_textgrid_run lines k).phone_count
          + (read_textgrid_run lines k).empty_intervals
        ≤ (read_textgrid_run lines k).interval_count ∧
      (read_textgrid_run lines k).empty_intervals
        ≤ (read_textgrid_run lines k).interval_count ∧
      (read_textgrid lines).word_count + (read_textgrid lines).phone_count
          + (read_textgrid lines).empty_intervals
        ≤ (read_textgrid lines).interval_count ∧
      (read_textgrid lines).empty_intervals
        ≤ (read_textgrid lines).interval_count := by
  intro lines k
  have h1 := foldl_scanStep_inv ((lines.map String.toList).take k)
    TGScan.init Nat.le.refl
  have h2 := foldl_scanStep_inv (lines.map String.toList)
    TGScan.init Nat.le.refl
  unfold TGScan.Inv at h1 h2
  exact ⟨h1, le_trans (Nat.le_add_left _ _) h1,
    h2, le_trans (Nat.le_add_left _ _) h2⟩

/-- C10 (counterexample): a log-extracted word can be classified
`special_chars`: `\w` admits `_`, which the classifier counts as a
special character, so `"foo_bar"` is both extracted verbatim and put in
the `special_chars` bucket. -/
theorem extract_oov_underscore_counterexample :
    extract_oov_words_from_log "OOV: foo_bar" = ["foo_bar"] ∧
    (classify "foo_bar").special_chars = true := by
  exact ⟨by decide, by decide⟩

/-- C10 (amended): every extracted word is a nonempty string of word
characters (letters, digits, underscore), hence never classified
`hyphenated` or `contractions`; it is classified `special_chars` exactly
when it contains an underscore.  An OOV entry written `"don't"` is
extracted as `"don"`. -/
theorem extract_oov_word_chars :
    (∀ (content w : String), w ∈ extract_oov_words_from_log content →
      w ≠ "" ∧ w.toList.all isWordChar = true ∧
      (classify w).hyphenated = false ∧
      (classify w).contractions = false ∧
      ((classify w).special_chars = true ↔ '_' ∈ w.toList)) ∧
    extract_oov_words_from_log "OOV: don't" = ["don"] := by
  refine ⟨?_, by decide⟩
  intro content w h
  obtain ⟨hne, hall⟩ := extract_words_shape content w h
  refine ⟨hne, hall, ?_, ?_, ?_⟩
  · show containsS "-" w = false
    unfold containsS
    rw [show ("-".toList) = ['-'] from rfl]
    exact not_containsL_of_all_wordChar _ _ hall (by decide)
  · show containsS "'" w = false
    unfold containsS
    rw [show ("'".toList) = ['\''] from rfl]
    exact not_containsL_of_all_wordChar _ _ hall (by decide)
  · show (w.toList.any fun c => !c.isAlphanum && c != '-' && c != '\'') = true ↔ _
    exact special_iff_underscore _ hall

/-- Witness for C10 (amended): the word extracted from `"OOV: don't"`
has the stated shape. -/
theorem extract_oov_word_chars_inst :
    ("don" : String) ≠ "" ∧
    ("don" : String).toList.all isWordChar = true ∧
    (classify "don").hyphenated = false ∧
    (classify "don").contractions = false ∧
    ((classify "don").special_chars = true ↔ '_' ∈ ("don" : String).toList) :=
  extract_oov_word_chars.1 "OOV: don't" "don" (by decide)

end MfaAligner
